import Mathlib

/-!
Shallow embedding of the access-controlled search core of
`pipeline/connectors/astra_db_connector.py` (class `AstraDBManager`).

Python strings are modelled as Lean `String` (lists of characters, ASCII
semantics for case folding), the document store as a `List Document`, and
each method of the class as a pure Lean function.  Wall-clock durations and
the analytics sink are side effects that do not influence the returned
envelope and are modelled as constants; the number of queries issued to the
document collection is recorded explicitly in the output (`storeCalls`).
-/

namespace KR

/-! ### Python string primitives -/

/-- Python `str.lower` (ASCII). -/
def lowerS (s : String) : String := ⟨s.data.map Char.toLower⟩

/-- Drop leading whitespace. -/
def stripLeft (l : List Char) : List Char := l.dropWhile Char.isWhitespace

/-- Python `str.strip` on character lists: drop whitespace at both ends. -/
def stripChars (l : List Char) : List Char :=
  ((l.dropWhile Char.isWhitespace).reverse.dropWhile Char.isWhitespace).reverse

/-- Python `str.strip`. -/
def pyStrip (s : String) : String := ⟨stripChars s.data⟩

/-- Occurrence of `t` as a contiguous sublist of `s` (Python `t in s`;
the empty string occurs in every string). -/
def isSubL (t : List Char) : List Char → Bool
  | [] => t.isEmpty
  | c :: rest => t.isPrefixOf (c :: rest) || isSubL t rest

/-- Python `t in s` on strings. -/
def isSub (t s : String) : Bool := isSubL t.data s.data

/-- Split a character list at every character satisfying `p`, keeping empty
pieces (the semantics of `re.split` with a single-character class). -/
def splitChars (p : Char → Bool) : List Char → List Char → List String
  | [], acc => [⟨acc.reverse⟩]
  | c :: rest, acc =>
    if p c then ⟨acc.reverse⟩ :: splitChars p rest [] else splitChars p rest (c :: acc)

/-- `re.split` by a character predicate. -/
def pySplit (p : Char → Bool) (s : String) : List String := splitChars p s.data []

/-- Python `str.split()` (no argument): split on whitespace runs, dropping
empty pieces. -/
def pySplitWs (s : String) : List String :=
  (pySplit Char.isWhitespace s).filter (fun w => w ≠ "")

/-- `" ".join(...)`. -/
def joinSpace (l : List String) : String := String.intercalate " " l

/-- Non-overlapping occurrence counting, second argument is the remaining
text paired with a skip counter (characters still covered by the last
accepted match). -/
def pyCountAux (t : List Char) : List Char → Nat → Nat
  | [], _ => 0
  | _ :: rest, skip + 1 => pyCountAux t rest skip
  | c :: rest, 0 =>
    if t.isPrefixOf (c :: rest) then 1 + pyCountAux t rest (t.length - 1)
    else pyCountAux t rest 0

/-- Python `s.count(t)`: non-overlapping occurrences; for the empty pattern
Python returns `len(s) + 1`. -/
def pyCount (t s : List Char) : Nat :=
  if t.isEmpty then s.length + 1 else pyCountAux t s 0

/-- Python slice `s[i:j]` for non-negative bounds. -/
def pySlice (s : String) (i j : Nat) : String := ⟨(s.data.drop i).take (j - i)⟩

/-- Python `range(0, stop, step)` for positive `step` (empty when `step = 0`,
where Python would raise). -/
def pyRange (stop step : Nat) : List Nat :=
  if step = 0 then [] else List.range' 0 ((stop + step - 1) / step) step

/-- One pass of `re.compile(re.escape(w), re.IGNORECASE).sub("**…**", s)`:
wrap every (left-to-right, non-overlapping) case-insensitive occurrence of
the non-empty word `wl` (already lower-cased) in `**` markers, keeping the
original casing of the matched text.  `fuel` bounds the recursion by the
length of the text. -/
def ciWrapAux (wl : List Char) : Nat → List Char → List Char
  | 0, _ => []
  | _ + 1, [] => []
  | fuel + 1, c :: rest =>
    if wl.isPrefixOf ((c :: rest).map Char.toLower) then
      '*' :: '*' :: ((c :: rest).take wl.length ++ '*' :: '*' ::
        ciWrapAux wl fuel ((c :: rest).drop wl.length))
    else c :: ciWrapAux wl fuel rest

/-- Substitution for the empty pattern: Python inserts the replacement at
every position of the text. -/
def ciWrapEmpty : List Char → List Char
  | [] => ['*', '*', '*', '*']
  | c :: rest => '*' :: '*' :: '*' :: '*' :: c :: ciWrapEmpty rest

/-- `re.compile(re.escape(word), re.IGNORECASE).sub(lambda m: "**" + m.group() + "**", s)`. -/
def ciWrap (word s : String) : String :=
  if word.data.isEmpty then ⟨ciWrapEmpty s.data⟩
  else ⟨ciWrapAux (lowerS word).data s.data.length s.data⟩

/-- Stable insertion into a list sorted by the boolean preorder `le`
(new element goes after existing elements it does not strictly precede,
matching the unique stable-sort placement). -/
def stableInsert (le : α → α → Bool) (x : α) : List α → List α
  | [] => [x]
  | y :: ys => if le x y then x :: y :: ys else y :: stableInsert le x ys

/-- Stable sort by a boolean preorder: the unique result of Python's stable
`list.sort`. -/
def stableSortBy (le : α → α → Bool) : List α → List α
  | [] => []
  | x :: xs => stableInsert le x (stableSortBy le xs)

/-! ### Data model (§3 of the spec, schema written by `store_document`) -/

/-- The `access_control` sub-document of the stored schema. -/
structure AccessControl where
  account_id : String
  external_user_id : String
  authorized_emails : List String
  permission_level : String
  created_by : String
deriving DecidableEq

/-- The `metadata` sub-document fields read by the search core. -/
structure Metadata where
  author : String
  type : String
  path : String
deriving DecidableEq

/-- The `chunk_info` sub-document. -/
structure ChunkInfo where
  total_chunks : Nat
  chunk_number : Nat
  parent_document_id : String
deriving DecidableEq

/-- A stored document, with the fields the search path reads. -/
structure Document where
  id : String
  title : String
  content : String
  searchable_text : String
  tool : String
  integration_type : String
  author_email : String
  user_emails_with_access : List String
  account_id : String
  external_user_id : String
  access_control : AccessControl
  sync_status : Bool
  last_sync_updated : String
  updated_at : String
  file_url : String
  web_view_link : String
  file_id : String
  is_chunked : Bool
  chunk_info : ChunkInfo
  metadata : Metadata
deriving DecidableEq

/-- The recognised entries of the `filters` dict of `search_documents`
(`none` / `false` model an absent or falsy entry). -/
structure Filters where
  external_user_id : Option String
  account_id : Option String
  apps : Option (List String)
  author : Option String
  file_types : Option (List String)
  from_date : Option String
  to_date : Option String
  include_failed_sync : Bool
deriving DecidableEq

/-- `filters=None`. -/
def noFilters : Filters := ⟨none, none, none, none, none, none, none, false⟩

/-- Python truthiness of an optional string entry. -/
def optTruthy : Option String → Bool
  | none => false
  | some s => s ≠ ""

/-- Python truthiness of an optional list entry. -/
def optListTruthy : Option (List String) → Bool
  | none => false
  | some l => !l.isEmpty

/-! ### Email normalization (`normalize_email`, `normalize_email_list`) -/

/-- `AstraDBManager.normalize_email`: empty result for a string without
an `'@'`, otherwise lower-case and strip. -/
def normalize_email (email : String) : String :=
  if email.data.contains '@' then pyStrip (lowerS email) else ""

/-- Accumulator loop of `normalize_email_list`: keep the normalized form of
each email when it is non-empty and not yet present. -/
def nelAux : List String → List String → List String
  | [], acc => acc
  | e :: rest, acc =>
    let n := normalize_email e
    if n ≠ "" ∧ n ∉ acc then nelAux rest (acc ++ [n]) else nelAux rest acc

/-- `AstraDBManager.normalize_email_list`. -/
def normalize_email_list (emails : List String) : List String := nelAux emails []

/-! ### `store_document` email handling (claim C10) -/

/-- The input record fields that determine the stored access lists. -/
structure DocData where
  author_email : String
  author : String
  user_emails_with_access : List String
deriving DecidableEq

/-- Author-e-mail resolution at the top of `store_document`:
`doc_data.get("author_email") or doc_data.get("author")`, falling back to
the first access-list entry, or `"unknown@domain.com"`. -/
def resolvedAuthorEmail (dd : DocData) : String :=
  let a := if dd.author_email ≠ "" then dd.author_email else dd.author
  if a = "" ∨ ¬ a.data.contains '@' then
    match dd.user_emails_with_access with
    | [] => "unknown@domain.com"
    | e :: _ => e
  else a

/-- The `user_emails_with_access` / `access_control.authorized_emails` list
computed before insertion: append the resolved author when truthy and not
already present (done once in `store_document` and repeated as a no-op in
`_store_single_document` / `_store_single_chunk`), then normalize. -/
def authorizedEmailsFor (dd : DocData) : List String :=
  let author := resolvedAuthorEmail dd
  let base := dd.user_emails_with_access
  let withAuthor := if author ≠ "" ∧ author ∉ base then base ++ [author] else base
  normalize_email_list withAuthor

/-- Access list of the document written by `_store_single_document`. -/
def storedSingleDocEmails (dd : DocData) : List String := authorizedEmailsFor dd

/-- Access list of every chunk document written by `_store_single_chunk`. -/
def storedChunkEmails (dd : DocData) : List String := authorizedEmailsFor dd

/-! ### Access filter of `search_documents` (lines 537-600) -/

/-- Whether the triple-verification branch is taken:
`filters and filters.get('external_user_id') and filters.get('account_id')`. -/
def tripleOn (f : Filters) : Bool :=
  optTruthy f.external_user_id && optTruthy f.account_id

/-- E-mail part of the access filter: the triple-verification `$or`
(new `access_control` structure vs. legacy top-level fields) when both ids
are supplied, else the basic e-mail `$or`. -/
def emailAccessOk (f : Filters) (uNorm : String) (d : Document) : Bool :=
  if tripleOn f then
    d.account_id == f.account_id.getD "" &&
      ((d.access_control.external_user_id == f.external_user_id.getD "" &&
          d.access_control.authorized_emails.contains uNorm) ||
        (d.external_user_id == f.external_user_id.getD "" &&
          d.user_emails_with_access.contains uNorm))
  else
    d.user_emails_with_access.contains uNorm || d.author_email == uNorm

/-- The additional filter entries (`apps`, `author`, `file_types`, date
range) applied to `access_filter`. -/
def extraFiltersOk (f : Filters) (d : Document) : Bool :=
  (!optListTruthy f.apps || (f.apps.getD []).contains d.tool) &&
  (!optTruthy f.author ||
    (d.metadata.author == f.author.getD "" || d.author_email == f.author.getD "")) &&
  (!optListTruthy f.file_types || (f.file_types.getD []).contains d.metadata.type) &&
  (!optTruthy f.from_date || decide (f.from_date.getD "" ≤ d.last_sync_updated)) &&
  (!optTruthy f.to_date || decide (d.last_sync_updated ≤ f.to_date.getD ""))

/-- The full store predicate; `withSync` is whether the `sync_status: True`
entry is present (it is popped when `include_failed_sync` is set, and absent
from the fallback query). -/
def accessPredB (f : Filters) (uNorm : String) (withSync : Bool) (d : Document) : Bool :=
  (!withSync || d.sync_status) && emailAccessOk f uNorm d && extraFiltersOk f d

/-- `docs_collection.find(pred, sort last_sync_updated desc, limit, skip)`:
filter, stable-sort by recency descending, skip, then limit. -/
def storeFind (store : List Document) (pred : Document → Bool) (lim skip : Nat) :
    List Document :=
  (((stableSortBy (fun a b => decide (b.last_sync_updated ≤ a.last_sync_updated))
    (store.filter pred)).drop skip).take lim)

/-! ### Query tokenization and text matching (lines 624-695) -/

/-- Characters kept by `re.split(r'[^\w@.-]', query)`. -/
def tokChar (c : Char) : Bool :=
  c.isAlphanum || c == '_' || c == '@' || c == '.' || c == '-'

/-- `query_words`: split the query at non-token characters, keep pieces of
stripped length `> 1`, lower-case and strip them. -/
def query_words (q : String) : List String :=
  ((pySplit (fun c => !tokChar c) q).filter (fun w => (pyStrip w).length > 1)).map
    (fun w => pyStrip (lowerS w))

/-- The `all_text` concatenation scanned by the primary matcher: all textual
fields, individually lower-cased, joined with single spaces. -/
def allTextOf (d : Document) : String :=
  joinSpace [lowerS d.title, lowerS d.content, lowerS d.searchable_text,
    lowerS d.author_email, lowerS (joinSpace d.user_emails_with_access),
    lowerS d.integration_type, lowerS d.tool, lowerS d.metadata.author,
    lowerS d.metadata.type, lowerS d.metadata.path, lowerS d.file_url]

/-- Strategy 1: the whole lower-cased query occurs in `all_text`. -/
def phraseHit (q : String) (d : Document) : Bool := isSub (lowerS q) (allTextOf d)

/-- Per-token credit of strategy 2 for one token. -/
def tokenScore (d : Document) (w : String) : Nat :=
  if isSub w (allTextOf d) then
    if isSub w (lowerS d.title) then 3
    else if isSub w (lowerS d.author_email) ||
        isSub w (lowerS (joinSpace d.user_emails_with_access)) then 2
    else 1
  else 0

/-- Accumulated credit of the strategy-2 loop over `query_words`. -/
def tokenCreditOf (q : String) (d : Document) : Nat :=
  (query_words q).foldl (fun acc w => acc + tokenScore d w) 0

/-- The `exact_matches` counter: phrase bonus plus per-token credit. -/
def exactMatchesOf (q : String) (d : Document) : Nat :=
  (if phraseHit q d then 5 else 0) + tokenCreditOf q d

/-- Strategy-3 increments for one token: the number of whitespace-separated
words of `all_text` of length `≥ 4` containing the token, counted only for
tokens of length `≥ 4`. -/
def subWordScore (d : Document) (w : String) : Nat :=
  if 4 ≤ w.length then
    ((pySplitWs (allTextOf d)).filter (fun tw => isSub w tw && 4 ≤ tw.length)).length
  else 0

/-- The `partial_matches` counter accumulated by the strategy-3 loop. -/
def pMatchesOf (q : String) (d : Document) : Nat :=
  (query_words q).foldl (fun acc w => acc + subWordScore d w) 0

/-- `match_found`: any of the three strategies fired. -/
def matchFound (q : String) (d : Document) : Bool :=
  phraseHit q d || (query_words q).any (fun w => isSub w (allTextOf d)) ||
    (query_words q).any (fun w =>
      4 ≤ w.length && (pySplitWs (allTextOf d)).any (fun tw => isSub w tw && 4 ≤ tw.length))

/-- `relevance_score = exact_matches * 2 + partial_matches`. -/
def relevanceOf (q : String) (d : Document) : Nat :=
  exactMatchesOf q d * 2 + pMatchesOf q d

/-- A candidate document annotated by the matcher (the keys
`relevance_score`, `exact_matches`, `partial_matches`, `is_fallback_result`
added to the dict; absent keys are modelled by their `get` defaults). -/
structure ScoredDoc where
  doc : Document
  relevance_score : Nat
  exact_matches : Nat
  pMatches : Nat
  is_fallback_result : Bool
deriving DecidableEq

/-- The primary text-filtering loop: browse mode (no tokens) keeps every
candidate unscored; otherwise keep exactly the candidates with
`match_found`, annotated with their scores. -/
def scoredOf (q : String) (cands : List Document) : List ScoredDoc :=
  if query_words q = [] then
    cands.map (fun d => ⟨d, 0, 0, 0, false⟩)
  else
    cands.filterMap (fun d =>
      if matchFound q d then
        some ⟨d, relevanceOf q d, exactMatchesOf q d, pMatchesOf q d, false⟩
      else none)

/-! ### Fallback matching (lines 700-730) -/

/-- The reduced concatenation scanned by the fallback matcher. -/
def fallbackAllText (d : Document) : String :=
  joinSpace [lowerS d.title, lowerS d.content, lowerS d.author_email,
    lowerS (joinSpace d.user_emails_with_access)]

/-- The fallback filtering loop: keep candidates with any token occurring in
the reduced concatenation, tagged `is_fallback_result` with fixed score 1. -/
def fallbackScoredOf (q : String) (cands : List Document) : List ScoredDoc :=
  cands.filterMap (fun d =>
    if (query_words q).any (fun w => isSub w (fallbackAllText d)) then
      some ⟨d, 1, 0, 0, true⟩
    else none)

/-! ### The search pipeline (lines 602-749) -/

/-- `search_limit = limit * 10`; primary candidate fetch with the full
access filter (`sync_status` present unless `include_failed_sync`). -/
def primaryCandidates (store : List Document) (u : String) (f : Filters)
    (lim off : Nat) : List Document :=
  storeFind store (accessPredB f (normalize_email u) (!f.include_failed_sync)) (lim * 10) off

/-- Primary scored results (`filtered_results` before any fallback). -/
def primaryScored (store : List Document) (q u : String) (f : Filters)
    (lim off : Nat) : List ScoredDoc :=
  scoredOf q (primaryCandidates store u f lim off)

/-- `if not filtered_results and query_words:`. -/
def fallbackTriggered (store : List Document) (q u : String) (f : Filters)
    (lim off : Nat) : Bool :=
  (primaryScored store q u f lim off).isEmpty && !(query_words q).isEmpty

/-- Fallback candidate fetch: the access filter with `sync_status` popped,
half the primary fetch limit, no skip. -/
def fallbackCandidates (store : List Document) (u : String) (f : Filters)
    (lim : Nat) : List Document :=
  storeFind store (accessPredB f (normalize_email u) false) (lim * 10 / 2) 0

/-- Fallback scored results (empty unless the fallback ran). -/
def fallbackScored (store : List Document) (q u : String) (f : Filters)
    (lim off : Nat) : List ScoredDoc :=
  if fallbackTriggered store q u f lim off then
    fallbackScoredOf q (fallbackCandidates store u f lim)
  else []

/-- `filtered_results` after the fallback block: primary results followed by
any fallback additions. -/
def mergedScored (store : List Document) (q u : String) (f : Filters)
    (lim off : Nat) : List ScoredDoc :=
  primaryScored store q u f lim off ++ fallbackScored store q u f lim off

/-- The sorting block: stable sort by `relevance_score` descending when
tokens exist and `sort_by == "relevance"`, else by recency descending when
`sort_by == "date"`, else unchanged. -/
def sortedScored (store : List Document) (q u : String) (f : Filters)
    (sort_by : String) (lim off : Nat) : List ScoredDoc :=
  let merged := mergedScored store q u f lim off
  if ¬(query_words q).isEmpty ∧ sort_by == "relevance" then
    stableSortBy (fun a b => decide (b.relevance_score ≤ a.relevance_score)) merged
  else if sort_by == "date" then
    stableSortBy
      (fun a b => decide (b.doc.last_sync_updated ≤ a.doc.last_sync_updated)) merged
  else merged

/-- `processed_results = filtered_results[:limit]`. -/
def processedScored (store : List Document) (q u : String) (f : Filters)
    (sort_by : String) (lim off : Nat) : List ScoredDoc :=
  (sortedScored store q u f sort_by lim off).take lim

/-! ### Snippet and highlight generation (lines 849-908) -/

/-- Score of the window of length `maxLen` starting at `i`:
`sum(snippet_text.count(word.lower()) for word in query_words)` over the
lower-cased content. -/
def windowScore (contentLower : String) (qw : List String) (maxLen i : Nat) : Nat :=
  (qw.map (fun w => pyCount (lowerS w).data (pySlice contentLower i (i + maxLen)).data)).sum

/-- The scanned window offsets: `range(0, max(1, len(content) - max_length + 1),
max_length // 4)`. -/
def windowOffsets (contentLen maxLen : Nat) : List Nat :=
  pyRange (max 1 (contentLen - maxLen + 1)) (maxLen / 4)

/-- The `(best_pos, best_score)` accumulator loop: keep the first strict
improvement of the window score. -/
def bestFold (f : Nat → Nat) (l : List Nat) (init : Nat × Nat) : Nat × Nat :=
  l.foldl (fun acc i => if f i > acc.2 then (i, f i) else acc) init

/-- The `best_pos` selection of `_generate_enhanced_snippet`, starting from
`best_pos = 0, best_score = 0`. -/
def bestPosOf (content : String) (qw : List String) (maxLen : Nat) : Nat :=
  (bestFold (windowScore (lowerS content) qw maxLen)
    (windowOffsets content.length maxLen) (0, 0)).1

/-- The highlighting loop of `_generate_enhanced_snippet`: for each word
whose lower-cased form occurs in the (original) snippet, substitute
case-insensitively in the accumulated text. -/
def highlightSnippet (snippet : String) (qw : List String) : String :=
  qw.foldl (fun acc w => if isSub (lowerS w) (lowerS snippet) then ciWrap w acc else acc)
    snippet

/-- `AstraDBManager._generate_enhanced_snippet`. -/
def generate_enhanced_snippet (content : String) (qw : List String)
    (maxLen : Nat) : String :=
  if content = "" then "No content available"
  else if qw.isEmpty then
    (if content.length > maxLen then pySlice content 0 maxLen ++ "..."
     else pySlice content 0 maxLen)
  else
    let bp := bestPosOf content qw maxLen
    let snippet := pySlice content bp (bp + maxLen)
    let h := highlightSnippet snippet qw
    let h2 := if bp > 0 then "..." ++ h else h
    if bp + maxLen < content.length then h2 ++ "..." else h2

/-- `AstraDBManager._highlight_text`: the same wrap-on-occurrence loop
without windowing. -/
def highlight_text (text : String) (qw : List String) : String :=
  if qw.isEmpty ∨ text = "" then text
  else
    qw.foldl (fun acc w => if isSub (lowerS w) (lowerS text) then ciWrap w acc else acc)
      text

/-! ### Result projection and envelope (lines 732-847) -/

/-- A "Did you mean?" suggestion entry of the search summary. -/
structure QuerySuggestion where
  query : String
  link : String
deriving DecidableEq

/-- One entry of the returned `results` list. -/
structure ResultData where
  title : String
  snippet : String
  link : String
  author : String
  source : String
  integration_type : String
  last_updated : String
  type : String
  sync_status : Bool
  account_id : String
  relevance_score : Nat
  is_fallback_result : Bool
  author_email : String
  users_with_access : List String
  access_count : Nat
  is_chunked : Bool
  chunk_info : ChunkInfo
  title_matches : String
  has_title_match : Bool
  has_content_match : Bool
deriving DecidableEq

/-- Projection of one processed document into its `result_data` dict. -/
def toResultData (q : String) (sd : ScoredDoc) : ResultData :=
  let d := sd.doc
  { title := d.title
    snippet := generate_enhanced_snippet d.content (query_words q) 250
    link := if d.web_view_link ≠ "" then d.web_view_link
      else if d.file_url ≠ "" then d.file_url
      else "https://yourapp.com/docs/" ++ d.file_id
    author := d.author_email
    source := d.tool
    integration_type := d.integration_type
    last_updated := d.last_sync_updated
    type := d.metadata.type
    sync_status := d.sync_status
    account_id := d.account_id
    relevance_score := sd.relevance_score
    is_fallback_result := sd.is_fallback_result
    author_email := d.author_email
    users_with_access := d.user_emails_with_access
    access_count := d.user_emails_with_access.length
    is_chunked := d.is_chunked
    chunk_info := d.chunk_info
    title_matches := highlight_text d.title (query_words q)
    has_title_match := (query_words q).any (fun w => isSub (lowerS w) (lowerS d.title))
    has_content_match := (query_words q).any (fun w => isSub (lowerS w) (lowerS d.content)) }

/-- `final_results`. -/
def finalResults (store : List Document) (q u : String) (f : Filters)
    (sort_by : String) (lim off : Nat) : List ResultData :=
  (processedScored store q u f sort_by lim off).map (toResultData q)

/-- Count-distribution dict built by repeated `get(..., 0) + 1` (insertion
order preserved, as for a Python dict). -/
def bumpCount (key : String) : List (String × Nat) → List (String × Nat)
  | [] => [(key, 1)]
  | (k, v) :: rest => if k = key then (k, v + 1) :: rest else (k, v) :: bumpCount key rest

/-- Fold a list of keys into a count distribution. -/
def countsOf (keys : List String) : List (String × Nat) :=
  keys.foldl (fun acc k => bumpCount k acc) []

/-- A summary dict value. -/
inductive SVal where
  | n (v : Nat)
  | s (v : String)
  | ls (v : List String)
  | counts (v : List (String × Nat))
  | sugg (v : List QuerySuggestion)
deriving DecidableEq

/-- The error envelope summary `{"total": 0, "by_source": {}, "error": msg}`
shared by the missing-actor path and the exception handler. -/
def errorSummary (msg : String) : List (String × SVal) :=
  [("total", .n 0), ("by_source", .counts []), ("error", .s msg)]

/-- The suggestion block: up to two spell-corrector rewrites when fewer than
three filtered results exist and the query had tokens.  The corrector is an
injected collaborator; URL percent-encoding of the rewrite is kept abstract
as the raw rewrite text. -/
def searchSuggestions (spell : String → List String) (q : String)
    (filteredCount : Nat) : List QuerySuggestion :=
  if filteredCount < 3 ∧ ¬(query_words q).isEmpty then
    ((spell q).take 2).map
      (fun s => ⟨s, "https://yourapp.com/search?q=" ++ s⟩)
  else []

/-- The success-path `search_summary` dict (elapsed wall-clock milliseconds
are not modelled and reported as 0). -/
def successSummary (q u : String) (dbResults filteredCount : Nat)
    (final : List ResultData) (suggestions : List QuerySuggestion) :
    List (String × SVal) :=
  [("total", .n filteredCount),
   ("returned", .n final.length),
   ("by_source", .counts (countsOf (final.map (·.source)))),
   ("by_integration", .counts (countsOf (final.map (·.integration_type)))),
   ("by_sync_status", .counts
     [("synced", (final.filter (·.sync_status)).length),
      ("failed", (final.filter (fun r => !r.sync_status)).length)]),
   ("search_time_ms", .n 0),
   ("user", .s u),
   ("query", .s q),
   ("query_words", .ls (query_words q)),
   ("search_method", .s "enhanced_aggressive_search"),
   ("db_results", .n dbResults),
   ("filtered_results", .n filteredCount),
   ("suggestions", .sugg suggestions),
   ("status", .s (if final.isEmpty then "no_results_found" else "results_found"))]

/-- The envelope returned by `search_documents`, with the number of queries
issued to the document collection recorded in `storeCalls`. -/
structure SearchOutput where
  results : List ResultData
  summary : List (String × SVal)
  storeCalls : Nat
deriving DecidableEq

/-- `AstraDBManager.search_documents` (the returned dict; the accompanying
wall-clock duration is not modelled). -/
def search_documents (store : List Document) (q u : String) (f : Filters)
    (sort_by : String) (lim off : Nat) (spell : String → List String) :
    SearchOutput :=
  if u = "" then
    { results := [], summary := errorSummary "User email required for access control"
      storeCalls := 0 }
  else
    let final := finalResults store q u f sort_by lim off
    let filteredCount := (mergedScored store q u f lim off).length
    let dbResults := (primaryCandidates store u f lim off).length
    { results := final
      summary := successSummary q u dbResults filteredCount final
        (searchSuggestions spell q filteredCount)
      storeCalls := if fallbackTriggered store q u f lim off then 2 else 1 }

/-- The key names of a summary dict. -/
def summaryKeys (summary : List (String × SVal)) : List String := summary.map (·.1)

/-! ### Dynamic suggestions (lines 1059-1110, claim C9) -/

/-- One autocomplete suggestion entry; the per-source heuristic scores are
decimal numbers, modelled as rationals. -/
structure DynSuggestion where
  text : String
  type : String
  score : ℚ
  icon : String
  description : String
deriving DecidableEq

/-- The dedup loop of `get_dynamic_suggestions`: keep a suggestion when its
lower-cased text was not seen and differs from the lower-cased stripped
partial query. -/
def dedupSuggestions (pl : String) (seen : List String) :
    List DynSuggestion → List DynSuggestion
  | [] => []
  | s :: rest =>
    let k := lowerS s.text
    if k ∉ seen ∧ k ≠ pl then s :: dedupSuggestions pl (k :: seen) rest
    else dedupSuggestions pl seen rest

/-- `AstraDBManager.get_dynamic_suggestions`, parameterized by the
concatenated output of the six best-effort sources (which query the store
and analytics collections): dedup, stable-sort by score descending,
truncate to the caller's limit. -/
def get_dynamic_suggestions (pquery : String)
    (all_suggestions : List DynSuggestion) (limit : Nat) : List DynSuggestion :=
  if pquery = "" ∨ (pyStrip pquery).length < 1 then []
  else
    let pl := pyStrip (lowerS pquery)
    (stableSortBy (fun a b => decide (b.score ≤ a.score))
      (dedupSuggestions pl [] all_suggestions)).take limit

/-! ### Spec-side reformulations (claim C3) -/

/-- The exact-match component `E` as the spec states it: 5 for a
whole-query phrase occurrence, plus, for each token occurring in the
concatenation, 3 for a title hit, else 2 for an author/access-list hit,
else 1. -/
def specExactScore (q : String) (d : Document) : Nat :=
  (if isSub (lowerS q) (allTextOf d) then 5 else 0) +
    ((query_words q).map (fun w =>
      if isSub w (allTextOf d) then
        if isSub w (lowerS d.title) then 3
        else if isSub w (lowerS d.author_email) ||
            isSub w (lowerS (joinSpace d.user_emails_with_access)) then 2
        else 1
      else 0)).sum

/-- The partial-match component `P` as the spec states it: the number of
(token, word) pairs with token length `≥ 4`, word length `≥ 4`, the word
drawn from the whitespace-split concatenation, and the token a substring of
the word. -/
def specSubWordPairs (q : String) (d : Document) : Nat :=
  ((query_words q).map (fun w =>
    if 4 ≤ w.length then
      ((pySplitWs (allTextOf d)).filter (fun tw => isSub w tw && 4 ≤ tw.length)).length
    else 0)).sum

/-- The e-mail access condition as a proposition, exactly as claim C1
phrases it: the scoped triple check when both identity filters are
supplied, else membership in the access list or authorship. -/
def emailAccessProp (f : Filters) (uNorm : String) (d : Document) : Prop :=
  if tripleOn f then
    d.account_id = f.account_id.getD "" ∧
      ((d.access_control.external_user_id = f.external_user_id.getD "" ∧
          uNorm ∈ d.access_control.authorized_emails) ∨
        (d.external_user_id = f.external_user_id.getD "" ∧
          uNorm ∈ d.user_emails_with_access))
  else
    uNorm ∈ d.user_emails_with_access ∨ d.author_email = uNorm

/-! ### Normalization-shape predicates (claim C10) -/

/-- `x` contains no ASCII upper-case letter. -/
def noUpperStr (x : String) : Prop :=
  ∀ c ∈ x.data, ¬(65 ≤ c.toNat ∧ c.toNat ≤ 90)

/-- `x` carries no leading or trailing whitespace. -/
def trimmedStr (x : String) : Prop :=
  (∀ c, x.data.head? = some c → c.isWhitespace = false) ∧
    (∀ c, x.data.getLast? = some c → c.isWhitespace = false)

/-! ### Concrete inputs used by counterexamples and witnesses -/

/-- A schema-complete document with every textual field empty. -/
def baseDoc : Document :=
  { id := "d1", title := "", content := "", searchable_text := "", tool := ""
    integration_type := "", author_email := "", user_emails_with_access := []
    account_id := "", external_user_id := ""
    access_control := ⟨"", "", [], "", ""⟩
    sync_status := true, last_sync_updated := "", updated_at := ""
    file_url := "", web_view_link := "", file_id := "", is_chunked := false
    chunk_info := ⟨1, 1, ""⟩, metadata := ⟨"", "", ""⟩ }

/-- A failed-sync document accessible to `a@b.c` whose content matches the
query `"hello"`. -/
def docFailedSync : Document :=
  { baseDoc with
    sync_status := false
    content := "hello world"
    author_email := "a@b.c"
    user_emails_with_access := ["a@b.c"] }

/-- Query used against `docPhrase` / `docTokens`: five two-character
tokens. -/
def qC4 : String := "ab cd ef gh ij"

/-- Contains `qC4` as a contiguous phrase, nowhere else. -/
def docPhrase : Document := { baseDoc with content := "ab cd ef gh ij" }

/-- Contains every token of `qC4` in its title but not the phrase. -/
def docTokens : Document := { baseDoc with title := "ij gh ef cd ab" }

/-- Two-token query for the C4 witness. -/
def qC4w : String := "ab cd"

/-- Contains `qC4w` as a phrase. -/
def docPhrase2 : Document := { baseDoc with content := "ab cd" }

/-- Contains both tokens of `qC4w` but not the phrase. -/
def docTokens2 : Document := { baseDoc with content := "cd ab" }

/-- An input record whose resolved author e-mail has no `'@'`. -/
def ddBad : DocData := ⟨"", "", ["bob"]⟩

/-- An input record with a well-formed (unnormalized) author e-mail. -/
def ddGood : DocData := ⟨" Bob@X.com ", "", ["carol@y.z"]⟩

/-- A concrete autocomplete suggestion. -/
def sugAlpha : DynSuggestion := ⟨"Alpha Report", "document", 9, "x", "doc"⟩

/-! ## Helper lemmas -/

theorem mem_stableInsert {le : α → α → Bool} {x a : α} {l : List α} :
    a ∈ stableInsert le x l ↔ a = x ∨ a ∈ l := by
  induction l with
  | nil => simp [stableInsert]
  | cons y ys ih =>
    by_cases h : le x y = true
    · simp [stableInsert, h]
    · simp only [stableInsert, if_neg h, List.mem_cons, ih]
      tauto

theorem stableInsert_perm (le : α → α → Bool) (x : α) (l : List α) :
    (stableInsert le x l).Perm (x :: l) := by
  induction l with
  | nil => simp [stableInsert]
  | cons y ys ih =>
    by_cases h : le x y = true
    · simp [stableInsert, h]
    · simp only [stableInsert, if_neg h]
      exact (List.Perm.cons y ih).trans (List.Perm.swap x y ys)

theorem stableSortBy_perm (le : α → α → Bool) (l : List α) :
    (stableSortBy le l).Perm l := by
  induction l with
  | nil => simp [stableSortBy]
  | cons x xs ih =>
    exact (stableInsert_perm le x (stableSortBy le xs)).trans (List.Perm.cons x ih)

theorem mem_stableSortBy {le : α → α → Bool} {a : α} {l : List α} :
    a ∈ stableSortBy le l ↔ a ∈ l :=
  (stableSortBy_perm le l).mem_iff

theorem pairwise_stableInsert {le : α → α → Bool}
    (htot : ∀ a b, le a b = true ∨ le b a = true)
    (htrans : ∀ a b c, le a b = true → le b c = true → le a c = true)
    {x : α} {l : List α} (hl : l.Pairwise (fun a b => le a b = true)) :
    (stableInsert le x l).Pairwise (fun a b => le a b = true) := by
  induction l with
  | nil => simp [stableInsert]
  | cons y ys ih =>
    rw [List.pairwise_cons] at hl
    by_cases h : le x y = true
    · simp only [stableInsert, if_pos h, List.pairwise_cons, List.mem_cons]
      refine ⟨?_, hl.1, hl.2⟩
      rintro z (rfl | hz)
      · exact h
      · exact htrans x y z h (hl.1 z hz)
    · simp only [stableInsert, if_neg h, List.pairwise_cons]
      refine ⟨?_, ih hl.2⟩
      intro z hz
      rcases mem_stableInsert.mp hz with hzx | hz'
      · rw [hzx]
        rcases htot x y with hxy | hyx
        · exact absurd hxy h
        · exact hyx
      · exact hl.1 z hz'

theorem pairwise_stableSortBy {le : α → α → Bool}
    (htot : ∀ a b, le a b = true ∨ le b a = true)
    (htrans : ∀ a b c, le a b = true → le b c = true → le a c = true)
    (l : List α) :
    (stableSortBy le l).Pairwise (fun a b => le a b = true) := by
  induction l with
  | nil => simp [stableSortBy]
  | cons x xs ih => exact pairwise_stableInsert htot htrans ih

theorem contains_true_iff {l : List String} {a : String} :
    l.contains a = true ↔ a ∈ l := by
  simp [List.contains, List.elem_iff]

theorem mem_storeFind {store : List Document} {pred : Document → Bool}
    {lim skip : Nat} {d : Document} (h : d ∈ storeFind store pred lim skip) :
    pred d = true := by
  unfold storeFind at h
  have h1 := List.drop_subset _ _ (List.take_subset _ _ h)
  have h2 := mem_stableSortBy.mp h1
  exact (List.mem_filter.mp h2).2

theorem mem_scoredOf {q : String} {cands : List Document} {sd : ScoredDoc}
    (h : sd ∈ scoredOf q cands) :
    sd.doc ∈ cands ∧ sd.is_fallback_result = false := by
  unfold scoredOf at h
  by_cases hq : query_words q = []
  · rw [if_pos hq] at h
    obtain ⟨d, hd, rfl⟩ := List.mem_map.mp h
    exact ⟨hd, rfl⟩
  · rw [if_neg hq] at h
    obtain ⟨d, hd, he⟩ := List.mem_filterMap.mp h
    by_cases hm : matchFound q d = true
    · rw [if_pos hm] at he
      cases he
      exact ⟨hd, rfl⟩
    · rw [if_neg hm] at he
      cases he

theorem mem_fallbackScoredOf {q : String} {cands : List Document} {sd : ScoredDoc}
    (h : sd ∈ fallbackScoredOf q cands) :
    sd.doc ∈ cands ∧ sd.is_fallback_result = true ∧ sd.relevance_score = 1 ∧
      (query_words q).any (fun w => isSub w (fallbackAllText sd.doc)) = true := by
  unfold fallbackScoredOf at h
  obtain ⟨d, hd, he⟩ := List.mem_filterMap.mp h
  by_cases hm : (query_words q).any (fun w => isSub w (fallbackAllText d)) = true
  · rw [if_pos hm] at he
    cases he
    exact ⟨hd, rfl, rfl, hm⟩
  · rw [if_neg hm] at he
    cases he

theorem mem_processed_merged {store : List Document} {q u : String} {f : Filters}
    {sb : String} {lim off : Nat} {sd : ScoredDoc}
    (h : sd ∈ processedScored store q u f sb lim off) :
    sd ∈ mergedScored store q u f lim off := by
  unfold processedScored sortedScored at h
  have h1 := List.take_subset _ _ h
  by_cases h2 : ¬(query_words q).isEmpty = true ∧ (sb == "relevance") = true
  · rw [if_pos h2] at h1
    exact mem_stableSortBy.mp h1
  · rw [if_neg h2] at h1
    by_cases h3 : (sb == "date") = true
    · rw [if_pos h3] at h1
      exact mem_stableSortBy.mp h1
    · rwa [if_neg h3] at h1

theorem mem_fallbackScored {store : List Document} {q u : String} {f : Filters}
    {lim off : Nat} {sd : ScoredDoc}
    (h : sd ∈ fallbackScored store q u f lim off) :
    primaryScored store q u f lim off = [] ∧ query_words q ≠ [] ∧
      sd ∈ fallbackScoredOf q (fallbackCandidates store u f lim) := by
  unfold fallbackScored at h
  by_cases ht : fallbackTriggered store q u f lim off = true
  · rw [if_pos ht] at h
    unfold fallbackTriggered at ht
    rw [Bool.and_eq_true, List.isEmpty_iff, Bool.not_eq_true'] at ht
    refine ⟨ht.1, ?_, h⟩
    intro hq
    have : (query_words q).isEmpty = true := List.isEmpty_iff.mpr hq
    rw [this] at ht
    exact absurd ht.2 (by simp)
  · rw [if_neg ht] at h
    cases h

theorem mem_merged_cases {store : List Document} {q u : String} {f : Filters}
    {lim off : Nat} {sd : ScoredDoc}
    (h : sd ∈ mergedScored store q u f lim off) :
    sd ∈ primaryScored store q u f lim off ∨
      sd ∈ fallbackScored store q u f lim off :=
  List.mem_append.mp h

theorem merged_flag {store : List Document} {q u : String} {f : Filters}
    {lim off : Nat} {sd : ScoredDoc}
    (h : sd ∈ mergedScored store q u f lim off) :
    sd.is_fallback_result = fallbackTriggered store q u f lim off := by
  rcases mem_merged_cases h with hp | hf
  · have h1 := (mem_scoredOf hp).2
    have h2 : fallbackTriggered store q u f lim off = false := by
      unfold fallbackTriggered
      have he : (primaryScored store q u f lim off).isEmpty = false := by
        cases he : (primaryScored store q u f lim off).isEmpty
        · rfl
        · rw [List.isEmpty_iff.mp he] at hp
          cases hp
      rw [he, Bool.false_and]
    rw [h1, h2]
  · have h1 := mem_fallbackScored hf
    have h2 := (mem_fallbackScoredOf h1.2.2).2.1
    have h3 : fallbackTriggered store q u f lim off = true := by
      unfold fallbackTriggered
      rw [Bool.and_eq_true, List.isEmpty_iff, Bool.not_eq_true']
      refine ⟨h1.1, ?_⟩
      cases he : (query_words q).isEmpty
      · rfl
      · exact absurd (List.isEmpty_iff.mp he) h1.2.1
    rw [h2, h3]

theorem emailAccess_prop {f : Filters} {uN : String} {d : Document}
    (h : emailAccessOk f uN d = true) : emailAccessProp f uN d := by
  unfold emailAccessOk at h
  unfold emailAccessProp
  by_cases ht : tripleOn f = true
  · rw [if_pos ht] at h ⊢
    rw [Bool.and_eq_true, Bool.or_eq_true, Bool.and_eq_true, Bool.and_eq_true] at h
    obtain ⟨ha, hor⟩ := h
    refine ⟨by simpa using ha, ?_⟩
    rcases hor with ⟨h1, h2⟩ | ⟨h1, h2⟩
    · exact Or.inl ⟨by simpa using h1, contains_true_iff.mp h2⟩
    · exact Or.inr ⟨by simpa using h1, contains_true_iff.mp h2⟩
  · rw [if_neg ht] at h
    rw [if_neg ht]
    rw [Bool.or_eq_true] at h
    rcases h with h1 | h1
    · exact Or.inl (contains_true_iff.mp h1)
    · exact Or.inr (by simpa using h1)

theorem foldl_add_init {α : Type} (g : α → Nat) :
    ∀ (l : List α) (init : Nat),
      l.foldl (fun a w => a + g w) init = init + (l.map g).sum := by
  intro l
  induction l with
  | nil => intro init; simp
  | cons x xs ih =>
    intro init
    simp only [List.foldl_cons, List.map_cons, List.sum_cons, ih]
    omega

/-! ## Claim C2 -/

/-- C2 (counterexample): the claim says `search_documents` fails with the
missing-actor error exactly when the actor e-mail is absent *or contains no
`'@'`*, performing no store access in that case.  With the non-empty actor
`"x"`, which contains no `'@'`, the code does not take the error path: it
queries the document collection once and returns a success-shaped summary. -/
theorem C2_counterexample :
    ("x".data.contains '@') = false ∧
      (search_documents [] "q" "x" noFilters "relevance" 10 0
        (fun _ => [])).storeCalls = 1 ∧
      (search_documents [] "q" "x" noFilters "relevance" 10 0
          (fun _ => [])).summary ≠
        errorSummary "User email required for access control" := by
  refine ⟨by decide, by decide, by decide⟩

/-- C2 (amended): `search_documents` takes the missing-actor error path
exactly when the actor e-mail is the empty (falsy) string, and that failure
is fatal: empty results, the zero-count error envelope, and no query to the
document collection.  For any non-empty actor — even one without `'@'` —
the store is queried at least once and the error envelope is not
returned. -/
theorem C2_missing_actor_amended :
    ∀ (store : List Document) (q u : String) (f : Filters) (sb : String)
      (lim off : Nat) (sp : String → List String),
      (u = "" → search_documents store q u f sb lim off sp =
        ⟨[], errorSummary "User email required for access control", 0⟩) ∧
      (u ≠ "" →
        1 ≤ (search_documents store q u f sb lim off sp).storeCalls ∧
          (search_documents store q u f sb lim off sp).summary ≠
            errorSummary "User email required for access control") := by
  intro store q u f sb lim off sp
  constructor
  · intro hu
    unfold search_documents
    rw [if_pos hu]
  · intro hu
    unfold search_documents
    rw [if_neg hu]
    constructor
    · by_cases ht : fallbackTriggered store q u f lim off = true
      · simp only [ht, if_true]
        omega
      · simp only [Bool.not_eq_true] at ht
        simp only [ht, Bool.false_eq_true, if_false]
        omega
    · intro heq
      have hlen := congrArg List.length heq
      simp [successSummary, errorSummary] at hlen

/-- C2 witness: with the valid actor `a@b.c` the store is queried and no
error envelope is produced. -/
theorem C2_missing_actor_amended_witness :
    1 ≤ (search_documents [] "hi" "a@b.c" noFilters "relevance" 10 0
        (fun _ => [])).storeCalls ∧
      (search_documents [] "hi" "a@b.c" noFilters "relevance" 10 0
          (fun _ => [])).summary ≠
        errorSummary "User email required for access control" :=
  (C2_missing_actor_amended [] "hi" "a@b.c" noFilters "relevance" 10 0
    (fun _ => [])).2 (by decide)

/-! ## Claim C3 -/

/-- C3: for every candidate document and every query with at least one
valid token, the relevance score assigned by primary matching equals
`2 * E + P`, where `E` is the spec's exact-match component (phrase bonus 5
plus 3/2/1 per-token credit) and `P` is the spec's count of partial
(token, word) substring pairs. -/
theorem C3_relevance_formula :
    ∀ (q : String) (d : Document), query_words q ≠ [] →
      relevanceOf q d = 2 * specExactScore q d + specSubWordPairs q d := by
  intro q d _
  unfold relevanceOf exactMatchesOf tokenCreditOf pMatchesOf specExactScore
    specSubWordPairs phraseHit
  rw [foldl_add_init (tokenScore d), foldl_add_init (subWordScore d)]
  have e1 : (query_words q).map (tokenScore d) =
      (query_words q).map (fun w =>
        if isSub w (allTextOf d) then
          if isSub w (lowerS d.title) then 3
          else if isSub w (lowerS d.author_email) ||
              isSub w (lowerS (joinSpace d.user_emails_with_access)) then 2
          else 1
        else 0) := rfl
  have e2 : (query_words q).map (subWordScore d) =
      (query_words q).map (fun w =>
        if 4 ≤ w.length then
          ((pySplitWs (allTextOf d)).filter
            (fun tw => isSub w tw && 4 ≤ tw.length)).length
        else 0) := rfl
  rw [e1, e2]
  omega

/-- C3 witness: the formula instantiated on a concrete query and
document. -/
theorem C3_relevance_formula_witness :
    query_words qC4 ≠ [] ∧
      relevanceOf qC4 docPhrase =
        2 * specExactScore qC4 docPhrase + specSubWordPairs qC4 docPhrase :=
  ⟨by decide, C3_relevance_formula qC4 docPhrase (by decide)⟩

/-! ## Claim C4 -/

/-- C4 (counterexample): the claim says a document containing the whole
query as a contiguous phrase always scores strictly higher than a document
matching only through per-token credit.  For the query
`"ab cd ef gh ij"`, `docPhrase` contains the exact phrase while `docTokens`
matches only per token (no phrase occurrence, no partial-match credit), yet
`docPhrase` scores 20 and `docTokens` scores 30. -/
theorem C4_counterexample :
    phraseHit qC4 docPhrase = true ∧ phraseHit qC4 docTokens = false ∧
      matchFound qC4 docTokens = true ∧ pMatchesOf qC4 docTokens = 0 ∧
      relevanceOf qC4 docPhrase < relevanceOf qC4 docTokens := by
  refine ⟨by decide, by decide, by decide, by decide, by decide⟩

/-- C4 (amended): the exact-phrase bonus adds a fixed strictly positive
amount (10) to the final score, so between two documents with equal
per-token credit and equal partial-match credit, the one containing the
whole raw query as a contiguous phrase scores strictly higher than the one
that does not. -/
theorem C4_phrase_bonus_amended :
    ∀ (q : String) (dA dB : Document),
      phraseHit q dA = true → phraseHit q dB = false →
      tokenCreditOf q dA = tokenCreditOf q dB →
      pMatchesOf q dA = pMatchesOf q dB →
      relevanceOf q dB < relevanceOf q dA := by
  intro q dA dB hA hB ht hp
  unfold relevanceOf exactMatchesOf
  rw [hA, hB, ht, hp]
  simp

/-- C4 witness: concrete documents with equal token and partial credits,
one containing the phrase. -/
theorem C4_phrase_bonus_amended_witness :
    phraseHit qC4w docPhrase2 = true ∧ phraseHit qC4w docTokens2 = false ∧
      relevanceOf qC4w docTokens2 < relevanceOf qC4w docPhrase2 :=
  ⟨by decide, by decide,
    C4_phrase_bonus_amended qC4w docPhrase2 docTokens2 (by decide) (by decide)
      (by decide) (by decide)⟩

/-! ## Claim C6 -/

/-- C6 (counterexample): the claim says the summary carries the stable
always-present keys (total matched, returned count, breakdowns, query
tokens, elapsed time, status) on every path including the missing-actor
path.  The missing-actor envelope carries only `total`, `by_source` and
`error`: `returned`, `query_words` and `status` are absent. -/
theorem C6_counterexample :
    "returned" ∉ summaryKeys (search_documents [] "q" "" noFilters
        "relevance" 10 0 (fun _ => [])).summary ∧
      "query_words" ∉ summaryKeys (search_documents [] "q" "" noFilters
        "relevance" 10 0 (fun _ => [])).summary ∧
      "status" ∉ summaryKeys (search_documents [] "q" "" noFilters
        "relevance" 10 0 (fun _ => [])).summary := by
  refine ⟨by decide, by decide, by decide⟩

/-- C6 (amended): every invocation returns a structured envelope (the
embedding is a total function, so no exception escapes).  On the success
path the summary carries exactly the stable key set — total, returned,
per-source/per-integration/per-sync-status breakdowns, elapsed time, user,
query, query tokens, method, db/filtered counts, suggestions and a status
marker — while the two failure paths (missing actor, store error) carry
exactly `total`, `by_source` and `error`. -/
theorem C6_envelope_keys_amended :
    ∀ (store : List Document) (q u : String) (f : Filters) (sb : String)
      (lim off : Nat) (sp : String → List String),
      (u ≠ "" → summaryKeys (search_documents store q u f sb lim off sp).summary =
        ["total", "returned", "by_source", "by_integration", "by_sync_status",
         "search_time_ms", "user", "query", "query_words", "search_method",
         "db_results", "filtered_results", "suggestions", "status"]) ∧
      (u = "" → summaryKeys (search_documents store q u f sb lim off sp).summary =
        ["total", "by_source", "error"]) ∧
      (∀ msg, summaryKeys (errorSummary msg) = ["total", "by_source", "error"]) := by
  intro store q u f sb lim off sp
  refine ⟨?_, ?_, fun _ => rfl⟩
  · intro hu
    unfold search_documents
    rw [if_neg hu]
    rfl
  · intro hu
    unfold search_documents
    rw [if_pos hu]
    rfl

/-- C6 witness: the success-path key list on a concrete invocation. -/
theorem C6_envelope_keys_amended_witness :
    summaryKeys (search_documents [] "q" "a@b.c" noFilters "relevance" 10 0
        (fun _ => [])).summary =
      ["total", "returned", "by_source", "by_integration", "by_sync_status",
       "search_time_ms", "user", "query", "query_words", "search_method",
       "db_results", "filtered_results", "suggestions", "status"] :=
  (C6_envelope_keys_amended [] "q" "a@b.c" noFilters "relevance" 10 0
    (fun _ => [])).1 (by decide)

/-! ## Claim C8 -/

/-- C8: snippet generation and title highlighting are deterministic pure
functions of their arguments — identical inputs give byte-identical
outputs. -/
theorem C8_determinism :
    ∀ (c c' : String) (qw qw' : List String) (m m' : Nat) (t t' : String)
      (hw hw' : List String),
      c = c' → qw = qw' → m = m' → t = t' → hw = hw' →
      generate_enhanced_snippet c qw m = generate_enhanced_snippet c' qw' m' ∧
        highlight_text t hw = highlight_text t' hw' := by
  intro c c' qw qw' m m' t t' hw hw' h1 h2 h3 h4 h5
  subst h1; subst h2; subst h3; subst h4; subst h5
  exact ⟨rfl, rfl⟩

/-- C8 witness: the determinism theorem applied at concrete inputs. -/
theorem C8_determinism_witness :
    generate_enhanced_snippet "abc" ["b"] 250 =
        generate_enhanced_snippet "abc" ["b"] 250 ∧
      highlight_text "Title" ["tit"] = highlight_text "Title" ["tit"] :=
  C8_determinism "abc" "abc" ["b"] ["b"] 250 250 "Title" "Title" ["tit"] ["tit"]
    rfl rfl rfl rfl rfl

/-! ## Claim C1 -/

/-- C1 (counterexample): the claim requires every returned document to have
`sync_status = true` unless `include_failed_sync` is set.  With
`include_failed_sync` unset, searching for `"hello"` as `a@b.c` over a
store holding only the failed-sync document `docFailedSync` returns that
document (through the fallback path), so a result with
`sync_status = false` is returned. -/
theorem C1_counterexample :
    noFilters.include_failed_sync = false ∧
      (search_documents [docFailedSync] "hello" "a@b.c" noFilters "relevance"
        10 0 (fun _ => [])).results.map (fun r => r.sync_status) = [false] := by
  refine ⟨rfl, by decide⟩

/-- C1 (amended): the returned results are exactly the projections of the
processed scored documents, and every processed document satisfies the
e-mail access predicate (the scoped triple check when both `account_id` and
`external_user_id` filters are supplied, else access-list membership or
authorship of the normalized actor e-mail); its `sync_status` is true
unless `include_failed_sync` is set **or the document was admitted by the
fallback path**, which drops the sync constraint. -/
theorem C1_access_amended :
    ∀ (store : List Document) (q u : String) (f : Filters) (sb : String)
      (lim off : Nat) (sp : String → List String),
      (u ≠ "" → (search_documents store q u f sb lim off sp).results =
        (processedScored store q u f sb lim off).map (toResultData q)) ∧
      (∀ sd ∈ processedScored store q u f sb lim off,
        emailAccessProp f (normalize_email u) sd.doc ∧
          (sd.doc.sync_status = true ∨ f.include_failed_sync = true ∨
            sd.is_fallback_result = true)) := by
  intro store q u f sb lim off sp
  constructor
  · intro hu
    unfold search_documents
    rw [if_neg hu]
    rfl
  · intro sd hmem
    have hm := mem_processed_merged hmem
    rcases mem_merged_cases hm with hp | hf
    · obtain ⟨hc, _⟩ := mem_scoredOf hp
      unfold primaryCandidates at hc
      have hpred := mem_storeFind hc
      unfold accessPredB at hpred
      rw [Bool.and_eq_true, Bool.and_eq_true] at hpred
      refine ⟨emailAccess_prop hpred.1.2, ?_⟩
      by_cases hif : f.include_failed_sync = true
      · exact Or.inr (Or.inl hif)
      · rw [Bool.not_eq_true] at hif
        have hs := hpred.1.1
        rw [hif] at hs
        simp only [Bool.not_false, Bool.true_or, Bool.not_true,
          Bool.false_or] at hs
        exact Or.inl hs
    · obtain ⟨_, _, hin⟩ := mem_fallbackScored hf
      obtain ⟨hc, hflag, _, _⟩ := mem_fallbackScoredOf hin
      unfold fallbackCandidates at hc
      have hpred := mem_storeFind hc
      unfold accessPredB at hpred
      rw [Bool.and_eq_true, Bool.and_eq_true] at hpred
      exact ⟨emailAccess_prop hpred.1.2, Or.inr (Or.inr hflag)⟩

/-- C1 witness: the amended access property instantiated on a concrete
fallback result. -/
theorem C1_access_amended_witness :
    emailAccessProp noFilters (normalize_email "a@b.c") docFailedSync ∧
      (docFailedSync.sync_status = true ∨ noFilters.include_failed_sync = true ∨
        (⟨docFailedSync, 1, 0, 0, true⟩ : ScoredDoc).is_fallback_result = true) :=
  (C1_access_amended [docFailedSync] "hello" "a@b.c" noFilters "relevance" 10 0
    (fun _ => [])).2 ⟨docFailedSync, 1, 0, 0, true⟩ (by decide)

/-! ## Claim C5 -/

/-- C5: whenever primary matching yields zero results and the query had at
least one valid token, the fallback re-issues the access-filtered store
query with the `sync_status` constraint removed and admits exactly the
candidates with some token occurring in the reduced
title/content/author/access-list concatenation, each tagged
`is_fallback_result = true` with fixed score 1; fallback results only ever
occur when there are no primary results at all, so in the final ranked list
no fallback result precedes a primary result under any sort mode. -/
theorem C5_fallback_policy :
    ∀ (store : List Document) (q u : String) (f : Filters) (sb : String)
      (lim off : Nat),
      (∀ sd ∈ processedScored store q u f sb lim off,
        sd.is_fallback_result = true →
          sd.relevance_score = 1 ∧
          accessPredB f (normalize_email u) false sd.doc = true ∧
          (query_words q).any (fun w => isSub w (fallbackAllText sd.doc)) = true ∧
          primaryScored store q u f lim off = [] ∧ query_words q ≠ []) ∧
      (primaryScored store q u f lim off = [] → query_words q ≠ [] →
        fallbackScored store q u f lim off =
          fallbackScoredOf q (fallbackCandidates store u f lim)) ∧
      (∀ (i j : Nat) (hi : i < (processedScored store q u f sb lim off).length)
        (hj : j < (processedScored store q u f sb lim off).length),
        ((processedScored store q u f sb lim off).get ⟨i, hi⟩).is_fallback_result = true →
        ((processedScored store q u f sb lim off).get ⟨j, hj⟩).is_fallback_result = true) := by
  intro store q u f sb lim off
  refine ⟨?_, ?_, ?_⟩
  · intro sd hmem hflag
    have hm := mem_processed_merged hmem
    rcases mem_merged_cases hm with hp | hf
    · have := (mem_scoredOf hp).2
      rw [hflag] at this
      cases this
    · obtain ⟨hempty, htok, hin⟩ := mem_fallbackScored hf
      obtain ⟨hc, _, hscore, hany⟩ := mem_fallbackScoredOf hin
      unfold fallbackCandidates at hc
      exact ⟨hscore, mem_storeFind hc, hany, hempty, htok⟩
  · intro h1 h2
    have ht : fallbackTriggered store q u f lim off = true := by
      unfold fallbackTriggered
      rw [Bool.and_eq_true, List.isEmpty_iff, Bool.not_eq_true']
      refine ⟨h1, ?_⟩
      cases he : (query_words q).isEmpty
      · rfl
      · exact absurd (List.isEmpty_iff.mp he) h2
    unfold fallbackScored
    rw [if_pos ht]
  · intro i j hi hj hflag
    have m1 : (processedScored store q u f sb lim off).get ⟨i, hi⟩ ∈
        mergedScored store q u f lim off :=
      mem_processed_merged (List.get_mem _ _ hi)
    have m2 : (processedScored store q u f sb lim off).get ⟨j, hj⟩ ∈
        mergedScored store q u f lim off :=
      mem_processed_merged (List.get_mem _ _ hj)
    rw [merged_flag m2, ← merged_flag m1]
    exact hflag

/-- C5 witness: the fallback facts instantiated on a concrete fallback
result. -/
theorem C5_fallback_policy_witness :
    (⟨docFailedSync, 1, 0, 0, true⟩ : ScoredDoc).relevance_score = 1 ∧
      accessPredB noFilters (normalize_email "a@b.c") false docFailedSync = true ∧
      (query_words "hello").any
        (fun w => isSub w (fallbackAllText docFailedSync)) = true ∧
      primaryScored [docFailedSync] "hello" "a@b.c" noFilters 10 0 = [] ∧
      query_words "hello" ≠ [] :=
  (C5_fallback_policy [docFailedSync] "hello" "a@b.c" noFilters "relevance"
    10 0).1 ⟨docFailedSync, 1, 0, 0, true⟩ (by decide) (by decide)

/-! ## Claim C9 -/

theorem dedupSuggestions_cons (pl : String) (seen : List String)
    (s : DynSuggestion) (rest : List DynSuggestion) :
    dedupSuggestions pl seen (s :: rest) =
      if lowerS s.text ∉ seen ∧ lowerS s.text ≠ pl then
        s :: dedupSuggestions pl (lowerS s.text :: seen) rest
      else dedupSuggestions pl seen rest := rfl

theorem dedupSuggestions_props (pl : String) :
    ∀ (l : List DynSuggestion) (seen : List String),
      (dedupSuggestions pl seen l).Pairwise
        (fun a b => lowerS a.text ≠ lowerS b.text) ∧
      ∀ s ∈ dedupSuggestions pl seen l, lowerS s.text ∉ seen ∧ lowerS s.text ≠ pl := by
  intro l
  induction l with
  | nil => intro seen; simp [dedupSuggestions]
  | cons s rest ih =>
    intro seen
    by_cases h : lowerS s.text ∉ seen ∧ lowerS s.text ≠ pl
    · rw [dedupSuggestions_cons, if_pos h]
      obtain ⟨hpw, hmem⟩ := ih (lowerS s.text :: seen)
      constructor
      · rw [List.pairwise_cons]
        refine ⟨?_, hpw⟩
        intro t ht
        have := (hmem t ht).1
        simp only [List.mem_cons, not_or] at this
        exact fun hc => this.1 hc.symm
      · intro t ht
        rcases List.mem_cons.mp ht with rfl | ht'
        · exact h
        · have := hmem t ht'
          simp only [List.mem_cons, not_or] at this
          exact ⟨this.1.2, this.2⟩
    · rw [dedupSuggestions_cons, if_neg h]
      exact ih seen

/-- C9: for every partial query, raw source output and limit, the
suggestion list returned by `get_dynamic_suggestions` contains no two
entries with case-insensitively equal text, never contains the case-folded
trimmed partial query, is sorted by score in non-increasing order, and has
length at most the caller's limit. -/
theorem C9_suggestion_list :
    ∀ (pq : String) (all : List DynSuggestion) (limit : Nat),
      (get_dynamic_suggestions pq all limit).Pairwise
        (fun a b => lowerS a.text ≠ lowerS b.text) ∧
      (∀ s ∈ get_dynamic_suggestions pq all limit,
        lowerS s.text ≠ pyStrip (lowerS pq)) ∧
      (get_dynamic_suggestions pq all limit).Pairwise
        (fun a b => b.score ≤ a.score) ∧
      (get_dynamic_suggestions pq all limit).length ≤ limit := by
  intro pq all limit
  unfold get_dynamic_suggestions
  by_cases hg : pq = "" ∨ (pyStrip pq).length < 1
  · rw [if_pos hg]
    simp
  · rw [if_neg hg]
    dsimp only
    set le : DynSuggestion → DynSuggestion → Bool :=
      fun a b => decide (b.score ≤ a.score) with hle
    set dl := dedupSuggestions (pyStrip (lowerS pq)) [] all with hdl
    have hperm := stableSortBy_perm le dl
    have hdprops := dedupSuggestions_props (pyStrip (lowerS pq)) all []
    have hsymm : ∀ {a b : DynSuggestion},
        lowerS a.text ≠ lowerS b.text → lowerS b.text ≠ lowerS a.text :=
      fun h => h.symm
    refine ⟨?_, ?_, ?_, ?_⟩
    · exact ((hperm.pairwise_iff hsymm).mpr hdprops.1).sublist
        (List.take_sublist _ _)
    · intro s hs
      have h1 := List.take_subset _ _ hs
      have h2 := mem_stableSortBy.mp h1
      exact (hdprops.2 s h2).2
    · have htot : ∀ a b : DynSuggestion, le a b = true ∨ le b a = true := by
        intro a b
        rcases le_total b.score a.score with h | h
        · exact Or.inl (decide_eq_true_iff.mpr h)
        · exact Or.inr (decide_eq_true_iff.mpr h)
      have htrans : ∀ a b c : DynSuggestion,
          le a b = true → le b c = true → le a c = true := by
        intro a b c h1 h2
        exact decide_eq_true_iff.mpr
          (le_trans (decide_eq_true_iff.mp h2) (decide_eq_true_iff.mp h1))
      have := pairwise_stableSortBy htot htrans dl
      exact ((this.imp (fun h => decide_eq_true_iff.mp h)).sublist
        (List.take_sublist _ _))
    · exact List.length_take_le _ _

/-- C9 witness: the properties instantiated on a concrete suggestion list
(the returned entry differs case-insensitively from the partial query). -/
theorem C9_suggestion_list_witness :
    lowerS sugAlpha.text ≠ pyStrip (lowerS "alpha") :=
  (C9_suggestion_list "alpha" [sugAlpha] 10).2.1 sugAlpha (by decide)

/-! ## Claim C10 -/

theorem toLower_not_upper (c : Char) :
    ¬(65 ≤ (Char.toLower c).toNat ∧ (Char.toLower c).toNat ≤ 90) := by
  by_cases h : c.toNat ≥ 65 ∧ c.toNat ≤ 90
  · have he : Char.toLower c = Char.ofNat (c.toNat + 32) := by
      unfold Char.toLower
      exact if_pos h
    rw [he]
    obtain ⟨h1, h2⟩ := h
    generalize hn : c.toNat = n at h1 h2
    interval_cases n <;> decide
  · have he : Char.toLower c = c := by
      unfold Char.toLower
      exact if_neg h
    rw [he]
    intro hc
    exact h ⟨hc.1, hc.2⟩

theorem head?_dropWhile_not (p : α → Bool) :
    ∀ (l : List α) (c : α), (l.dropWhile p).head? = some c → p c = false := by
  intro l
  induction l with
  | nil => intro c h; cases h
  | cons a l ih =>
    intro c h
    rw [List.dropWhile_cons] at h
    by_cases hp : p a = true
    · rw [if_pos hp] at h
      exact ih c h
    · rw [if_neg hp] at h
      have : a = c := Option.some.inj h
      rw [← this]
      exact Bool.eq_false_iff.mpr hp

theorem getLast?_dropWhile (p : α → Bool) :
    ∀ (l : List α), l.dropWhile p ≠ [] →
      (l.dropWhile p).getLast? = l.getLast? := by
  intro l
  induction l with
  | nil => intro h; exact absurd rfl h
  | cons a l ih =>
    intro h
    rw [List.dropWhile_cons] at h ⊢
    by_cases hp : p a = true
    · rw [if_pos hp] at h ⊢
      have hl : l ≠ [] := by
        intro he
        rw [he] at h
        exact h rfl
      rw [ih h]
      cases l with
      | nil => exact absurd rfl hl
      | cons b m => rw [List.getLast?_cons_cons]
    · rw [if_neg hp]

theorem stripChars_head {l : List Char} {c : Char}
    (h : (stripChars l).head? = some c) : c.isWhitespace = false := by
  unfold stripChars at h
  rw [List.head?_reverse] at h
  have hm : (l.dropWhile Char.isWhitespace).reverse.dropWhile Char.isWhitespace ≠ [] := by
    intro he
    rw [he] at h
    cases h
  rw [getLast?_dropWhile _ _ hm, List.getLast?_reverse] at h
  exact head?_dropWhile_not _ _ _ h

theorem stripChars_getLast {l : List Char} {c : Char}
    (h : (stripChars l).getLast? = some c) : c.isWhitespace = false := by
  unfold stripChars at h
  rw [List.getLast?_reverse] at h
  exact head?_dropWhile_not _ _ _ h

theorem mem_stripChars {l : List Char} {c : Char} (h : c ∈ stripChars l) :
    c ∈ l := by
  unfold stripChars at h
  have h1 := List.mem_reverse.mp h
  have h2 := (List.dropWhile_sublist _).subset h1
  have h3 := List.mem_reverse.mp h2
  exact (List.dropWhile_sublist _).subset h3

theorem stripChars_ne_nil {l : List Char} {c : Char} (hc : c ∈ l)
    (hw : c.isWhitespace = false) : stripChars l ≠ [] := by
  intro he
  unfold stripChars at he
  rw [List.reverse_eq_nil_iff, List.dropWhile_eq_nil_iff] at he
  have hr : ∀ x ∈ l.dropWhile Char.isWhitespace, x.isWhitespace = true :=
    fun x hx => he x (List.mem_reverse.mpr hx)
  have hsplit : c ∈ l.takeWhile Char.isWhitespace ∨
      c ∈ l.dropWhile Char.isWhitespace := by
    have hl := List.takeWhile_append_dropWhile Char.isWhitespace l
    rw [← hl] at hc
    exact List.mem_append.mp hc
  rcases hsplit with h1 | h1
  · have := List.mem_takeWhile_imp h1
    rw [hw] at this
    cases this
  · have := hr c h1
    rw [hw] at this
    cases this

theorem normalize_props (e : String) (hne : normalize_email e ≠ "") :
    noUpperStr (normalize_email e) ∧ trimmedStr (normalize_email e) := by
  unfold normalize_email at hne ⊢
  by_cases h : e.data.contains '@' = true
  · rw [if_pos h]
    have hdata : (pyStrip (lowerS e)).data = stripChars (e.data.map Char.toLower) := rfl
    refine ⟨?_, ?_, ?_⟩
    · intro c hc
      rw [hdata] at hc
      obtain ⟨a, _, rfl⟩ := List.mem_map.mp (mem_stripChars hc)
      exact toLower_not_upper a
    · intro c hc
      rw [hdata] at hc
      exact stripChars_head hc
    · intro c hc
      rw [hdata] at hc
      exact stripChars_getLast hc
  · rw [if_neg h] at hne
    exact absurd rfl hne

theorem normalize_ne_empty {e : String} (h : e.data.contains '@' = true) :
    normalize_email e ≠ "" := by
  unfold normalize_email
  rw [if_pos h]
  intro he
  have hd : stripChars (e.data.map Char.toLower) = [] := congrArg String.data he
  have hat : '@' ∈ e.data := List.elem_iff.mp h
  have hat2 : '@' ∈ e.data.map Char.toLower :=
    List.mem_map.mpr ⟨'@', hat, by decide⟩
  exact stripChars_ne_nil hat2 (by decide) hd

theorem nelAux_cons (e : String) (rest acc : List String) :
    nelAux (e :: rest) acc =
      if normalize_email e ≠ "" ∧ normalize_email e ∉ acc then
        nelAux rest (acc ++ [normalize_email e])
      else nelAux rest acc := rfl

theorem nelAux_acc_subset : ∀ (l acc : List String), acc ⊆ nelAux l acc := by
  intro l
  induction l with
  | nil => intro acc x hx; exact hx
  | cons e rest ih =>
    intro acc
    rw [nelAux_cons]
    by_cases h : normalize_email e ≠ "" ∧ normalize_email e ∉ acc
    · rw [if_pos h]
      exact fun x hx => ih _ (List.mem_append.mpr (Or.inl hx))
    · rw [if_neg h]
      exact ih acc

theorem nelAux_mem (author : String) :
    ∀ (l acc : List String), author ∈ l → normalize_email author ≠ "" →
      normalize_email author ∈ nelAux l acc := by
  intro l
  induction l with
  | nil => intro acc h; cases h
  | cons e rest ih =>
    intro acc hmem hne
    rw [nelAux_cons]
    rcases List.mem_cons.mp hmem with rfl | h'
    · by_cases hc : normalize_email author ≠ "" ∧ normalize_email author ∉ acc
      · rw [if_pos hc]
        exact nelAux_acc_subset rest _
          (List.mem_append.mpr (Or.inr (List.mem_singleton.mpr rfl)))
      · rw [if_neg hc]
        push_neg at hc
        exact nelAux_acc_subset rest acc (hc hne)
    · by_cases hc : normalize_email e ≠ "" ∧ normalize_email e ∉ acc
      · rw [if_pos hc]
        exact ih _ h' hne
      · rw [if_neg hc]
        exact ih acc h' hne

theorem nelAux_nodup : ∀ (l acc : List String), acc.Nodup → (nelAux l acc).Nodup := by
  intro l
  induction l with
  | nil => intro acc h; exact h
  | cons e rest ih =>
    intro acc hacc
    rw [nelAux_cons]
    by_cases h : normalize_email e ≠ "" ∧ normalize_email e ∉ acc
    · rw [if_pos h]
      refine ih _ (List.nodup_append.mpr ⟨hacc, List.nodup_singleton _, ?_⟩)
      intro x hx hx1
      rw [List.mem_singleton.mp hx1] at hx
      exact h.2 hx
    · rw [if_neg h]
      exact ih acc hacc

theorem nelAux_all (P : String → Prop)
    (hP : ∀ e, normalize_email e ≠ "" → P (normalize_email e)) :
    ∀ (l acc : List String), (∀ x ∈ acc, P x) → ∀ x ∈ nelAux l acc, P x := by
  intro l
  induction l with
  | nil => intro acc hacc; exact hacc
  | cons e rest ih =>
    intro acc hacc
    rw [nelAux_cons]
    by_cases h : normalize_email e ≠ "" ∧ normalize_email e ∉ acc
    · rw [if_pos h]
      refine ih _ ?_
      intro x hx
      rcases List.mem_append.mp hx with h1 | h1
      · exact hacc x h1
      · rw [List.mem_singleton.mp h1]
        exact hP e h.1
    · rw [if_neg h]
      exact ih acc hacc

/-- C10 (counterexample): the claim says every stored document's access
list contains the normalized author e-mail.  For the input record `ddBad`
(no author field, access list `["bob"]`) the resolved author is `"bob"`,
which has no `'@'`: the normalizer discards it, the stored access list is
empty, and it contains the normalized form of neither the resolved nor the
record's author e-mail. -/
theorem C10_counterexample :
    storedSingleDocEmails ddBad = [] ∧ storedChunkEmails ddBad = [] ∧
      resolvedAuthorEmail ddBad = "bob" ∧
      normalize_email (resolvedAuthorEmail ddBad) ∉ storedSingleDocEmails ddBad ∧
      normalize_email ddBad.author_email ∉ storedSingleDocEmails ddBad := by
  refine ⟨by decide, by decide, by decide, by decide, by decide⟩

/-- C10 (amended): every document written by `store_document` — whether as
a single document or as chunks — carries a `user_emails_with_access` list
that is duplicate-free, lower-cased and whitespace-trimmed, and whenever
the resolved author e-mail contains an `'@'` the list contains its
normalized form. -/
theorem C10_stored_emails_amended :
    ∀ dd : DocData,
      (storedSingleDocEmails dd).Nodup ∧
      storedChunkEmails dd = storedSingleDocEmails dd ∧
      (∀ x ∈ storedSingleDocEmails dd, noUpperStr x ∧ trimmedStr x) ∧
      ((resolvedAuthorEmail dd).data.contains '@' = true →
        normalize_email (resolvedAuthorEmail dd) ∈ storedSingleDocEmails dd) := by
  intro dd
  have heq : storedSingleDocEmails dd =
      nelAux (if resolvedAuthorEmail dd ≠ "" ∧
          resolvedAuthorEmail dd ∉ dd.user_emails_with_access then
        dd.user_emails_with_access ++ [resolvedAuthorEmail dd]
      else dd.user_emails_with_access) [] := rfl
  refine ⟨?_, rfl, ?_, ?_⟩
  · rw [heq]
    exact nelAux_nodup _ [] List.nodup_nil
  · rw [heq]
    exact nelAux_all _ (fun e he => normalize_props e he) _ []
      (fun y hy => absurd hy (List.not_mem_nil y))
  · intro hat
    have hne : normalize_email (resolvedAuthorEmail dd) ≠ "" :=
      normalize_ne_empty hat
    have hne' : resolvedAuthorEmail dd ≠ "" := by
      intro h0
      rw [h0] at hat
      exact absurd hat (by decide)
    rw [heq]
    by_cases hb : resolvedAuthorEmail dd ∈ dd.user_emails_with_access
    · rw [if_neg (fun hcon => hcon.2 hb)]
      exact nelAux_mem _ _ [] hb hne
    · rw [if_pos ⟨hne', hb⟩]
      exact nelAux_mem _ _ []
        (List.mem_append.mpr (Or.inr (List.mem_singleton.mpr rfl))) hne

/-- C10 witness: the amended invariant instantiated on a record with a
well-formed author e-mail. -/
theorem C10_stored_emails_amended_witness :
    normalize_email (resolvedAuthorEmail ddGood) ∈ storedSingleDocEmails ddGood ∧
      (storedSingleDocEmails ddGood).Nodup :=
  ⟨(C10_stored_emails_amended ddGood).2.2.2 (by decide),
   (C10_stored_emails_amended ddGood).1⟩

/-! ## Claim C7 -/

theorem bestFold_spec (f : Nat → Nat) :
    ∀ (l : List Nat) (p : Nat), l.Pairwise (· < ·) → (∀ y ∈ l, p < y) →
      (bestFold f l (p, f p)).2 = f (bestFold f l (p, f p)).1 ∧
      ((bestFold f l (p, f p)).1 = p ∨ (bestFold f l (p, f p)).1 ∈ l) ∧
      f p ≤ (bestFold f l (p, f p)).2 ∧
      (∀ x ∈ l, f x ≤ (bestFold f l (p, f p)).2) ∧
      (∀ x ∈ l, f x = (bestFold f l (p, f p)).2 → (bestFold f l (p, f p)).1 ≤ x) ∧
      p ≤ (bestFold f l (p, f p)).1 ∧
      ((bestFold f l (p, f p)).1 = p ∨ f p < (bestFold f l (p, f p)).2) := by
  intro l
  induction l with
  | nil =>
    intro p _ _
    refine ⟨rfl, Or.inl rfl, le_refl _, ?_, ?_, le_refl _, Or.inl rfl⟩
    · intro x hx; cases hx
    · intro x hx; cases hx
  | cons i rest ih =>
    intro p hpw hlt
    have hpw' := List.pairwise_cons.mp hpw
    have hstep : bestFold f (i :: rest) (p, f p) =
        bestFold f rest (if f i > f p then (i, f i) else (p, f p)) := rfl
    by_cases h : f p < f i
    · rw [hstep, if_pos h]
      obtain ⟨e1, e2, e3, e4, e5, e6, e7⟩ := ih i hpw'.2 hpw'.1
      refine ⟨e1, ?_, ?_, ?_, ?_, ?_, ?_⟩
      · rcases e2 with h2 | h2
        · exact Or.inr (by rw [h2]; exact List.mem_cons_self i rest)
        · exact Or.inr (List.mem_cons_of_mem i h2)
      · exact le_trans (le_of_lt h) e3
      · intro x hx
        rcases List.mem_cons.mp hx with rfl | hx'
        · exact e3
        · exact e4 x hx'
      · intro x hx hfx
        rcases List.mem_cons.mp hx with rfl | hx'
        · rcases e7 with h7 | h7
          · exact le_of_eq h7
          · omega
        · exact e5 x hx' hfx
      · exact le_trans (le_of_lt (hlt i (List.mem_cons_self i rest))) e6
      · exact Or.inr (lt_of_lt_of_le h e3)
    · rw [hstep, if_neg h]
      have hlt' : ∀ y ∈ rest, p < y := fun y hy => hlt y (List.mem_cons_of_mem i hy)
      obtain ⟨e1, e2, e3, e4, e5, e6, e7⟩ := ih p hpw'.2 hlt'
      have hip : f i ≤ f p := not_lt.mp h
      refine ⟨e1, ?_, e3, ?_, ?_, e6, e7⟩
      · rcases e2 with h2 | h2
        · exact Or.inl h2
        · exact Or.inr (List.mem_cons_of_mem i h2)
      · intro x hx
        rcases List.mem_cons.mp hx with rfl | hx'
        · exact le_trans hip e3
        · exact e4 x hx'
      · intro x hx hfx
        rcases List.mem_cons.mp hx with rfl | hx'
        · rcases e7 with h7 | h7
          · rw [h7]
            exact le_of_lt (hlt x (List.mem_cons_self x rest))
          · omega
        · exact e5 x hx' hfx

theorem pairwise_lt_range' (step : Nat) (hstep : 0 < step) :
    ∀ (n s : Nat), (List.range' s n step).Pairwise (· < ·) := by
  intro n
  induction n with
  | zero => intro s; simp
  | succ m ih =>
    intro s
    rw [List.range'_succ, List.pairwise_cons]
    refine ⟨?_, ih (s + step)⟩
    intro y hy
    obtain ⟨i, _, rfl⟩ := List.mem_range'.mp hy
    omega

theorem windowOffsets_shape (clen : Nat) :
    ∃ rest, windowOffsets clen 250 = 0 :: rest ∧
      rest.Pairwise (· < ·) ∧ (∀ y ∈ rest, 0 < y) := by
  unfold windowOffsets pyRange
  rw [if_neg (by decide : ¬((250 : Nat) / 4 = 0))]
  have hn : (max 1 (clen - 250 + 1) + 250 / 4 - 1) / (250 / 4) ≠ 0 := by
    have h1 : 1 ≤ max 1 (clen - 250 + 1) := le_max_left 1 _
    have : (250 : Nat) / 4 = 62 := by decide
    rw [this]
    intro h0
    have := Nat.div_eq_zero_iff (by decide : 0 < 62) |>.mp h0
    omega
  obtain ⟨m, hm⟩ := Nat.exists_eq_succ_of_ne_zero hn
  rw [hm, List.range'_succ]
  refine ⟨_, rfl, pairwise_lt_range' _ (by decide) m _, ?_⟩
  intro y hy
  obtain ⟨i, _, rfl⟩ := List.mem_range'.mp hy
  have : (250 : Nat) / 4 = 62 := by decide
  omega

theorem bestPos_spec (content : String) (qw : List String) :
    bestPosOf content qw 250 ∈ windowOffsets content.length 250 ∧
      (∀ o ∈ windowOffsets content.length 250,
        windowScore (lowerS content) qw 250 o ≤
          windowScore (lowerS content) qw 250 (bestPosOf content qw 250)) ∧
      (∀ o ∈ windowOffsets content.length 250,
        windowScore (lowerS content) qw 250 o =
          windowScore (lowerS content) qw 250 (bestPosOf content qw 250) →
        bestPosOf content qw 250 ≤ o) := by
  obtain ⟨rest, hoffs, hpw, hpos⟩ := windowOffsets_shape content.length
  have hbp : bestPosOf content qw 250 =
      (bestFold (windowScore (lowerS content) qw 250) (0 :: rest) (0, 0)).1 := by
    unfold bestPosOf
    rw [hoffs]
  have hinit : bestFold (windowScore (lowerS content) qw 250) (0 :: rest) (0, 0) =
      bestFold (windowScore (lowerS content) qw 250) rest
        (0, windowScore (lowerS content) qw 250 0) := by
    unfold bestFold
    rw [List.foldl_cons]
    congr 1
    by_cases h : 0 < windowScore (lowerS content) qw 250 0
    · rw [if_pos h]
    · rw [if_neg h]
      have h0 : windowScore (lowerS content) qw 250 0 = 0 := by omega
      rw [h0]
  obtain ⟨e1, e2, e3, e4, e5, e6, e7⟩ :=
    bestFold_spec (windowScore (lowerS content) qw 250) rest 0 hpw hpos
  rw [hbp, hinit, hoffs]
  refine ⟨?_, ?_, ?_⟩
  · rcases e2 with h2 | h2
    · rw [h2]; exact List.mem_cons_self 0 rest
    · exact List.mem_cons_of_mem 0 h2
  · intro o ho
    rcases List.mem_cons.mp ho with rfl | ho'
    · rw [← e1]; exact e3
    · rw [← e1]; exact e4 o ho'
  · intro o ho heq
    rcases List.mem_cons.mp ho with rfl | ho'
    · rcases e7 with h7 | h7
      · exact le_of_eq h7
      · rw [e1] at h7
        omega
    · refine e5 o ho' ?_
      rw [e1]
      exact heq

/-- C7 (counterexample): the claim says that with no tokens the snippet is
the first 250 characters of the content (with an ellipsis exactly when the
content is longer).  For empty content that would be the empty string, but
the code returns the fixed placeholder `"No content available"`. -/
theorem C7_counterexample :
    generate_enhanced_snippet "" [] 250 = "No content available" ∧
      generate_enhanced_snippet "" [] 250 ≠ pySlice "" 0 250 := by
  refine ⟨by decide, by decide⟩

/-- C7 (amended): for empty content the snippet is the fixed placeholder;
for non-empty content with no tokens it is the first 250 characters with a
trailing ellipsis exactly when the content is longer than 250; with tokens
it is the 250-character window starting at the smallest scanned offset
(step 250/4 from 0) maximizing the total token occurrence count, with the
per-token case-insensitive bold-wrapping applied to the window, an ellipsis
prepended iff the window does not start at offset 0 and appended iff it
does not reach the end of the content. -/
theorem C7_snippet_amended :
    ∀ (content : String) (qw : List String),
      (content = "" → generate_enhanced_snippet content qw 250 =
        "No content available") ∧
      (content ≠ "" → qw = [] → generate_enhanced_snippet content qw 250 =
        pySlice content 0 250 ++ (if 250 < content.length then "..." else "")) ∧
      (content ≠ "" → qw ≠ [] →
        (generate_enhanced_snippet content qw 250 =
          (if 0 < bestPosOf content qw 250 then "..." else "") ++
            highlightSnippet (pySlice content (bestPosOf content qw 250)
              (bestPosOf content qw 250 + 250)) qw ++
            (if bestPosOf content qw 250 + 250 < content.length then "..."
             else "")) ∧
        bestPosOf content qw 250 ∈ windowOffsets content.length 250 ∧
        (∀ o ∈ windowOffsets content.length 250,
          windowScore (lowerS content) qw 250 o ≤
            windowScore (lowerS content) qw 250 (bestPosOf content qw 250)) ∧
        (∀ o ∈ windowOffsets content.length 250,
          windowScore (lowerS content) qw 250 o =
            windowScore (lowerS content) qw 250 (bestPosOf content qw 250) →
          bestPosOf content qw 250 ≤ o)) := by
  intro content qw
  refine ⟨?_, ?_, ?_⟩
  · intro h
    unfold generate_enhanced_snippet
    rw [if_pos h]
  · intro h1 h2
    have hq : qw.isEmpty = true := by rw [h2]; rfl
    unfold generate_enhanced_snippet
    rw [if_neg h1, if_pos hq]
    by_cases hlen : content.length > 250
    · rw [if_pos hlen, if_pos hlen]
    · rw [if_neg hlen, if_neg hlen, String.append_empty]
  · intro h1 h2
    have hq : qw.isEmpty = false := by
      cases qw with
      | nil => exact absurd rfl h2
      | cons a l => rfl
    obtain ⟨s1, s2, s3⟩ := bestPos_spec content qw
    refine ⟨?_, s1, s2, s3⟩
    unfold generate_enhanced_snippet
    rw [if_neg h1, if_neg (by rw [hq]; exact Bool.false_ne_true)]
    by_cases hb : bestPosOf content qw 250 > 0
    · by_cases hs : bestPosOf content qw 250 + 250 < content.length
      · rw [if_pos hs, if_pos hb, if_pos hb, if_pos hs, String.append_assoc]
      · rw [if_neg hs, if_pos hb, if_pos hb, if_neg hs, String.append_empty]
    · by_cases hs : bestPosOf content qw 250 + 250 < content.length
      · rw [if_pos hs, if_neg hb, if_neg hb, if_pos hs]
        congr 1
      · rw [if_neg hs, if_neg hb, if_neg hb, if_neg hs, String.append_empty]
        congr 1

/-- C7 witness: the amended description instantiated on concrete content
and tokens. -/
theorem C7_snippet_amended_witness :
    ("hello world" : String) ≠ "" ∧ (["world"] : List String) ≠ [] ∧
      (generate_enhanced_snippet "hello world" ["world"] 250 =
        (if 0 < bestPosOf "hello world" ["world"] 250 then "..." else "") ++
          highlightSnippet (pySlice "hello world"
            (bestPosOf "hello world" ["world"] 250)
            (bestPosOf "hello world" ["world"] 250 + 250)) ["world"] ++
          (if bestPosOf "hello world" ["world"] 250 + 250 <
              ("hello world" : String).length then "..." else "")) :=
  ⟨by decide, by decide,
    ((C7_snippet_amended "hello world" ["world"]).2.2 (by decide) (by decide)).1⟩

end KR
